import Mathlib

/-!
Verification of the suola URL-canonicalization and signing module.

The definitions below are a shallow embedding of the Go sources:
`lib.go` (rule model, `LoadRules`, `extractFields`, `formatURL`,
`processURL`, `generateSignature`, `GetSignature`) and `wasi.go`
(the boundary packing `GetSignature`/`stringToPtr`).

External libraries used by the Go code are modelled at their interface:
 - Go's `regexp` package: a compiled regex is represented by its observable
   behaviour (`FindStringSubmatch` and `SubexpNames`);
 - Go's `text/template`: a compiled template is a list of literal and
   field-reference parts, which is the fragment of the template language
   the rule files use;
 - `purell` normalization plus `net/url.Parse` appear as an abstract
   `parseNorm : String → Except String URL` parameter;
 - `yaml.Unmarshal` appears as an abstract `Except String RawConfig` input;
 - Go maps (`QueryParams`, `Transform`, the extracted field map) are
   association lists; the extracted field map is kept in key-sorted
   canonical form, so that Go's unspecified map iteration order shows up
   as permutation of the association lists.
-/

/-- Models Go `strings.HasSuffix(s, suf)`. -/
def goHasSuffix (s suf : String) : Bool :=
  suf.data.isSuffixOf s.data

/-- Models Go `strings.ToLower` on the ASCII range (the only case the
rule files exercise). -/
def goToLower (s : String) : String :=
  String.mk (s.data.map Char.toLower)

/-- UTF-8 encoding of one character, as a list of byte values. -/
def utf8EncodeChar (c : Char) : List Nat :=
  let n := c.toNat
  if n < 0x80 then [n]
  else if n < 0x800 then
    [0xC0 ||| (n >>> 6), 0x80 ||| (n &&& 0x3F)]
  else if n < 0x10000 then
    [0xE0 ||| (n >>> 12), 0x80 ||| ((n >>> 6) &&& 0x3F), 0x80 ||| (n &&& 0x3F)]
  else
    [0xF0 ||| (n >>> 18), 0x80 ||| ((n >>> 12) &&& 0x3F),
     0x80 ||| ((n >>> 6) &&& 0x3F), 0x80 ||| (n &&& 0x3F)]

/-- UTF-8 bytes of a list of characters. -/
def utf8BytesAux : List Char → List Nat
  | [] => []
  | c :: cs => utf8EncodeChar c ++ utf8BytesAux cs

/-- Models Go `[]byte(s)`: the UTF-8 bytes of a string. -/
def utf8Bytes (s : String) : List Nat :=
  utf8BytesAux s.data

/-- Models Go `len(s)` on strings: the UTF-8 byte length. -/
def goLen (s : String) : Nat :=
  (utf8Bytes s).length

/-- The lowercase hexadecimal digits, as used by Go `encoding/hex`. -/
def hexChars : List Char :=
  "0123456789abcdef".data

/-- Lowercase hexadecimal digit of `n % 16`. -/
def hexDigit (n : Nat) : Char :=
  hexChars.getD (n % 16) (Char.ofNat 48)

/-- Models Go `hex.EncodeToString`: two lowercase hex digits per byte. -/
def hexEncode : List Nat → List Char
  | [] => []
  | b :: bs => hexDigit (b / 16) :: hexDigit b :: hexEncode bs

/-! SHA-256, modelling Go `crypto/sha256.Sum256` (FIPS 180-4), on byte
lists with 32-bit words represented as `Nat` reduced mod `2^32`. -/

/-- Truncation to a 32-bit word. -/
def w32 (n : Nat) : Nat := n % 4294967296

/-- Right rotation of a 32-bit word. -/
def rotr32 (x n : Nat) : Nat := w32 ((x >>> n) ||| (x <<< (32 - n)))

def sigBig0 (x : Nat) : Nat := rotr32 x 2 ^^^ (rotr32 x 13 ^^^ rotr32 x 22)

def sigBig1 (x : Nat) : Nat := rotr32 x 6 ^^^ (rotr32 x 11 ^^^ rotr32 x 25)

def sigSm0 (x : Nat) : Nat := rotr32 x 7 ^^^ (rotr32 x 18 ^^^ (x >>> 3))

def sigSm1 (x : Nat) : Nat := rotr32 x 17 ^^^ (rotr32 x 19 ^^^ (x >>> 10))

def chF (x y z : Nat) : Nat := (x &&& y) ^^^ ((x ^^^ 0xFFFFFFFF) &&& z)

def majF (x y z : Nat) : Nat := (x &&& y) ^^^ (x &&& z) ^^^ (y &&& z)

/-- The SHA-256 round constants (decimal). -/
def K64 : List Nat :=
  [1116352408, 1899447441, 3049323471, 3921009573,
   961987163, 1508970993, 2453635748, 2870763221,
   3624381080, 310598401, 607225278, 1426881987,
   1925078388, 2162078206, 2614888103, 3248222580,
   3835390401, 4022224774, 264347078, 604807628,
   770255983, 1249150122, 1555081692, 1996064986,
   2554220882, 2821834349, 2952996808, 3210313671,
   3336571891, 3584528711, 113926993, 338241895,
   666307205, 773529912, 1294757372, 1396182291,
   1695183700, 1986661051, 2177026350, 2456956037,
   2730485921, 2820302411, 3259730800, 3345764771,
   3516065817, 3600352804, 4094571909, 275423344,
   430227734, 506948616, 659060556, 883997877,
   958139571, 1322822218, 1537002063, 1747873779,
   1955562222, 2024104815, 2227730452, 2361852424,
   2428436474, 2756734187, 3204031479, 3329325298]

/-- The eight 32-bit hash (or working) variables of SHA-256. -/
structure HState where
  a : Nat
  b : Nat
  c : Nat
  d : Nat
  e : Nat
  f : Nat
  g : Nat
  h : Nat

/-- The SHA-256 initial hash value (decimal). -/
def initH : HState :=
  ⟨1779033703, 3144134277, 1013904242, 2773480762,
   1359893119, 2600822924, 528734635, 1541459225⟩

/-- One SHA-256 round on the working variables, for one (constant, word)
pair. -/
def roundStep (st : HState) (kw : Nat × Nat) : HState :=
  let t1 := w32 (st.h + sigBig1 st.e + chF st.e st.f st.g + kw.1 + kw.2)
  let t2 := w32 (sigBig0 st.a + majF st.a st.b st.c)
  ⟨w32 (t1 + t2), st.a, st.b, st.c, w32 (st.d + t1), st.e, st.f, st.g⟩

/-- Big-endian 32-bit words from a byte list. -/
def toWords : List Nat → List Nat
  | b0 :: b1 :: b2 :: b3 :: rest =>
    (b0 * 0x1000000 + b1 * 0x10000 + b2 * 0x100 + b3) :: toWords rest
  | _ => []

/-- Extends the 16-word message block to the 64-word schedule
(`n` appending steps). -/
def extendSchedule : List Nat → Nat → List Nat
  | w, 0 => w
  | w, n + 1 =>
    let len := w.length
    let x := w32 (sigSm1 (w.getD (len - 2) 0) + w.getD (len - 7) 0 +
      sigSm0 (w.getD (len - 15) 0) + w.getD (len - 16) 0)
    extendSchedule (w ++ [x]) n

/-- SHA-256 compression of one 64-byte chunk into the hash state. -/
def compressChunk (hs : HState) (chunk : List Nat) : HState :=
  let w := extendSchedule (toWords chunk) 48
  let st := (K64.zip w).foldl roundStep hs
  ⟨w32 (hs.a + st.a), w32 (hs.b + st.b), w32 (hs.c + st.c), w32 (hs.d + st.d),
   w32 (hs.e + st.e), w32 (hs.f + st.f), w32 (hs.g + st.g), w32 (hs.h + st.h)⟩

/-- Splits a byte list into 64-byte chunks. -/
def chunks64 : List Nat → List (List Nat)
  | [] => []
  | x :: xs => ((x :: xs).take 64) :: chunks64 ((x :: xs).drop 64)
termination_by l => l.length
decreasing_by simp; omega

/-- Big-endian 8-byte encoding of a 64-bit value. -/
def be64 (n : Nat) : List Nat :=
  [n / 0x100000000000000 % 256, n / 0x1000000000000 % 256,
   n / 0x10000000000 % 256, n / 0x100000000 % 256,
   n / 0x1000000 % 256, n / 0x10000 % 256, n / 0x100 % 256, n % 256]

/-- Big-endian 4-byte encoding of a 32-bit word. -/
def be32 (n : Nat) : List Nat :=
  [n / 0x1000000 % 256, n / 0x10000 % 256, n / 0x100 % 256, n % 256]

/-- SHA-256 padding: `0x80`, zeros to 56 mod 64, then the 64-bit
big-endian bit length. -/
def padMsg (msg : List Nat) : List Nat :=
  let l := msg.length
  let k := (119 - l % 64) % 64
  msg ++ 0x80 :: (List.replicate k 0 ++ be64 (8 * l))

/-- SHA-256 digest (32 bytes) of a byte list. -/
def sha256 (msg : List Nat) : List Nat :=
  let hf := (chunks64 (padMsg msg)).foldl compressChunk initH
  be32 hf.a ++ be32 hf.b ++ be32 hf.c ++ be32 hf.d ++
  be32 hf.e ++ be32 hf.f ++ be32 hf.g ++ be32 hf.h

/-- Embeds `generateSignature` from lib.go:
`hex.EncodeToString(sha256.Sum256([]byte(input)))`. -/
def generateSignature (input : String) : String :=
  String.mk (hexEncode (sha256 (utf8Bytes input)))

/-! The rule data model of lib.go. -/

/-- A compiled Go regular expression (`regexp.Regexp`), represented by its
observable behaviour: `find` models `FindStringSubmatch` (`none` when there
is no match; on a match, the list of submatches with the whole match at
index 0, non-participating groups reported as `""`), and `subexpNames`
models `SubexpNames` (index 0 is `""`). -/
structure Regex where
  find : String → Option (List String)
  subexpNames : List String

/-- Models Go `regexp.MatchString`, which is true exactly when
`FindStringSubmatch` finds a match. -/
def Regex.matchString (re : Regex) (s : String) : Bool :=
  (re.find s).isSome

/-- One part of a compiled `text/template`: a literal run or a
`.FieldName` reference. -/
inductive TmplPart where
  | lit (s : String)
  | field (name : String)
deriving DecidableEq

/-- A compiled output template (`template.Template`), restricted to the
literal/field-substitution fragment the rule files use. -/
abbrev Tmpl := List TmplPart

/-- Embeds `TemplateRule` from lib.go. `queryParams` and `transform` are
Go maps rendered as association lists (field name first); `regex` and
`tmpl` are the compiled artifacts `_Regex` (nil when `pattern` is empty)
and `_Template`. -/
structure TemplateRule where
  pattern : String
  queryParams : List (String × String)
  template : String
  transform : List (String × String)
  regex : Option Regex
  tmpl : Tmpl

/-- Embeds `SiteRule` from lib.go (the `Tests` fixtures play no part in
the pipeline and are omitted). -/
structure SiteRule where
  domain : String
  templates : List TemplateRule

/-- Embeds `Config` from lib.go. -/
structure Config where
  sites : List SiteRule

/-- A parsed normalized URL (`net/url.URL`), with the query string already
parsed into key/value pairs in order of appearance. -/
structure URL where
  scheme : String
  host : String
  path : String
  query : List (String × String)
deriving DecidableEq

/-- Models `u.Query().Get(key)`: the first value for the key, or `""`. -/
def queryGet (u : URL) (key : String) : String :=
  ((u.query.find? (fun p => p.1 == key)).map Prod.snd).getD ""

/-- Query-string rendering used by `URL.toString` below. -/
def queryString : List (String × String) → String
  | [] => ""
  | [p] => p.1 ++ "=" ++ p.2
  | p :: rest => p.1 ++ "=" ++ p.2 ++ "&" ++ queryString rest

/-- Models `u.String()` on the fragment-less, userinfo-less URLs this
pipeline handles. -/
def urlToString (u : URL) : String :=
  u.scheme ++ "://" ++ u.host ++ u.path ++
    (match u.query with
     | [] => ""
     | q => "?" ++ queryString q)

/-- The pipeline error values produced by lib.go (`fmt.Errorf` results);
`parseError` carries an error surfaced by URL normalization or parsing. -/
inductive PErr where
  | parseError (msg : String)
  | noFields (url : String)
  | noMatch (host : String)
deriving DecidableEq

/-- The error strings the `fmt.Errorf` calls in lib.go produce. -/
def PErr.message : PErr → String
  | .parseError m => m
  | .noFields u => "no fields extracted from URL: " ++ u
  | .noMatch h => "no matching rule found for host " ++ h

/-- Models the Go map write `fields[k] = v` on the extracted field map.
The map is kept as a key-sorted association list (the canonical form of a
Go map, whose iteration order is unspecified): insert in key order,
replacing the entry when the key is already present. -/
def setField : List (String × String) → String → String → List (String × String)
  | [], k, v => [(k, v)]
  | p :: rest, k, v =>
    if k < p.1 then (k, v) :: p :: rest
    else if k = p.1 then (k, v) :: rest
    else p :: setField rest k v

/-- Models the Go map read `fields[k]` (`none` for a missing key, which in
Go reads as the zero value `""`). -/
def lookupField (fields : List (String × String)) (k : String) : Option String :=
  (fields.find? (fun p => p.1 == k)).map Prod.snd

/-- One step of the regex stage of `extractFields`: a named, non-empty
capture (name, value) becomes a field. -/
def rcStep (f : List (String × String)) (p : String × String) :
    List (String × String) :=
  if p.1 ≠ "" ∧ p.2 ≠ "" then setField f p.1 p.2 else f

/-- The regex stage of `extractFields`: on a path match, every named
subexpression with a non-empty captured value becomes a field (index 0,
the whole match, is skipped). -/
def regexCaptures (re : Regex) (path : String)
    (fields : List (String × String)) : List (String × String) :=
  match re.find path with
  | none => fields
  | some ms => ((re.subexpNames.zip ms).drop 1).foldl rcStep fields

/-- One step of the query-parameter stage of `extractFields`: the entry is
`(field name, query key)`, and a non-empty query value is written
unconditionally. -/
def qpStep (u : URL) (f : List (String × String)) (p : String × String) :
    List (String × String) :=
  if queryGet u p.2 ≠ "" then setField f p.1 (queryGet u p.2) else f

/-- The query-parameter stage of `extractFields`. -/
def applyQueryParams (u : URL) (qps : List (String × String))
    (fields : List (String × String)) : List (String × String) :=
  qps.foldl (qpStep u) fields

/-- One step of the transform stage of `extractFields`: only the
`"lowercase"` action does anything, and only to a field that exists. -/
def trStep (f : List (String × String)) (p : String × String) :
    List (String × String) :=
  match lookupField f p.1 with
  | some v => if p.2 = "lowercase" then setField f p.1 (goToLower v) else f
  | none => f

/-- The transform stage of `extractFields`. -/
def applyTransforms (tr : List (String × String))
    (fields : List (String × String)) : List (String × String) :=
  tr.foldl trStep fields

/-- Embeds `extractFields` from lib.go. -/
def extractFields (u : URL) (rule : TemplateRule) :
    Except PErr (List (String × String)) :=
  let f1 := match rule.regex with
    | none => ([] : List (String × String))
    | some re => regexCaptures re u.path []
  let f2 := applyQueryParams u rule.queryParams f1
  let f3 := applyTransforms rule.transform f2
  if f3.isEmpty then .error (.noFields (urlToString u)) else .ok f3

/-- The field map `extractFields` builds before its emptiness check
(the three stages composed). -/
def extractRaw (u : URL) (rule : TemplateRule) : List (String × String) :=
  applyTransforms rule.transform (applyQueryParams u rule.queryParams
    (match rule.regex with
     | none => []
     | some re => regexCaptures re u.path []))

/-- Rendering of one template part against the field map. The rules are
executed with `text/template`'s default `missingkey` option (the code
never calls `.Option`), under which indexing a map with an absent key
produces an invalid value that prints as the literal `"<no value>"`. -/
def renderPart (fields : List (String × String)) : TmplPart → String
  | .lit s => s
  | .field n => (lookupField fields n).getD "<no value>"

/-- Models `Template.Execute` writing the parts into a `strings.Builder`. -/
def renderTmpl (t : Tmpl) (fields : List (String × String)) : String :=
  t.foldl (fun acc p => acc ++ renderPart fields p) ""

/-- Embeds `formatURL` from lib.go (on the substitution-only template
fragment, `Execute` cannot fail). -/
def formatURL (rule : TemplateRule) (fields : List (String × String)) : String :=
  renderTmpl rule.tmpl fields

/-- The guard `rule._Regex == nil || rule._Regex.MatchString(parsed.Path)`
of the template loop in `processURL`. -/
def templateApplies (u : URL) (r : TemplateRule) : Bool :=
  match r.regex with
  | none => true
  | some re => re.matchString u.path

/-- The inner loop of `processURL` over one site's templates: the first
applicable template whose extraction succeeds produces the output; an
extraction failure falls through to the next template. -/
def matchTemplates (u : URL) : List TemplateRule → Option String
  | [] => none
  | r :: rs =>
    if templateApplies u r then
      match extractFields u r with
      | .error _ => matchTemplates u rs
      | .ok fields => some (formatURL r fields)
    else matchTemplates u rs

/-- The outer loop of `processURL` over the sites: a site is consulted
when its domain is a string suffix of the host; when the loop falls off
the end the result is the "no matching rule found for host" error. -/
def matchSites (u : URL) : List SiteRule → Except PErr String
  | [] => .error (.noMatch u.host)
  | s :: ss =>
    if goHasSuffix u.host s.domain then
      match matchTemplates u s.templates with
      | some out => .ok out
      | none => matchSites u ss
    else matchSites u ss

/-- Embeds `processURL` from lib.go; `parseNorm` models the external
`normalizeURL` (purell) plus `url.Parse` steps. -/
def processURL (parseNorm : String → Except String URL)
    (sites : List SiteRule) (raw : String) : Except PErr String :=
  match parseNorm raw with
  | .error e => .error (.parseError e)
  | .ok u => matchSites u sites

/-- Embeds `getSignature` (lib.go `GetSignature`): the canonical URL from
`processURL`, hashed by `generateSignature`; errors propagate. -/
def getSignature (parseNorm : String → Except String URL)
    (sites : List SiteRule) (raw : String) : Except PErr String :=
  match processURL parseNorm sites raw with
  | .error e => .error e
  | .ok formatted => .ok (generateSignature formatted)

/-! Rule loading (lib.go `LoadRules`). The YAML decoding and the two
external compilers (`regexp.Compile`, `template.Parse`) are parameters;
the global `Rules` variable is explicit state. -/

/-- A `TemplateRule` as decoded from YAML, before compilation. -/
structure RawTemplateRule where
  pattern : String
  queryParams : List (String × String)
  template : String
  transform : List (String × String)

/-- A `SiteRule` as decoded from YAML. -/
structure RawSiteRule where
  domain : String
  templates : List RawTemplateRule

/-- A `Config` as decoded from YAML. -/
structure RawConfig where
  sites : List RawSiteRule

/-- Compilation of one rule inside the `LoadRules` loop: the template is
always parsed; the regex only when `pattern` is non-empty. Failures carry
the domain, as the `fmt.Errorf` wrapping does. -/
def compileTemplateRule (ct : String → Except String Tmpl)
    (cr : String → Except String Regex) (domain : String)
    (r : RawTemplateRule) : Except String TemplateRule :=
  match ct r.template with
  | .error e => .error ("parsing template for domain " ++ domain ++ ": " ++ e)
  | .ok t =>
    if r.pattern = "" then
      .ok ⟨r.pattern, r.queryParams, r.template, r.transform, none, t⟩
    else
      match cr r.pattern with
      | .error e => .error ("compiling regex for domain " ++ domain ++ ": " ++ e)
      | .ok re => .ok ⟨r.pattern, r.queryParams, r.template, r.transform, some re, t⟩

/-- The inner `LoadRules` loop over one site's templates; the first
compilation failure aborts. -/
def compileTemplates (ct : String → Except String Tmpl)
    (cr : String → Except String Regex) (domain : String) :
    List RawTemplateRule → Except String (List TemplateRule)
  | [] => .ok []
  | r :: rs =>
    match compileTemplateRule ct cr domain r with
    | .error e => .error e
    | .ok c =>
      match compileTemplates ct cr domain rs with
      | .error e => .error e
      | .ok cs => .ok (c :: cs)

/-- The outer `LoadRules` loop over the sites. -/
def compileSites (ct : String → Except String Tmpl)
    (cr : String → Except String Regex) :
    List RawSiteRule → Except String (List SiteRule)
  | [] => .ok []
  | s :: ss =>
    match compileTemplates ct cr s.domain s.templates with
    | .error e => .error e
    | .ok ts =>
      match compileSites ct cr ss with
      | .error e => .error e
      | .ok cs => .ok (⟨s.domain, ts⟩ :: cs)

/-- Compilation of a whole decoded config. -/
def compileConfig (ct : String → Except String Tmpl)
    (cr : String → Except String Regex) (raw : RawConfig) :
    Except String Config :=
  match compileSites ct cr raw.sites with
  | .error e => .error e
  | .ok cs => .ok ⟨cs⟩

/-- Embeds `LoadRules` from lib.go as a state transition on the global
`Rules` variable: `doc` is the `yaml.Unmarshal` outcome; the result pairs
the returned error value with the new state. `Rules = &cfg` runs only
after every rule compiled. -/
def LoadRules (ct : String → Except String Tmpl)
    (cr : String → Except String Regex) (prev : Option Config)
    (doc : Except String RawConfig) : Except String Unit × Option Config :=
  match doc with
  | .error e => (.error ("parsing YAML: " ++ e), prev)
  | .ok raw =>
    match compileConfig ct cr raw with
    | .error e => (.error e, prev)
    | .ok cfg => (.ok (), some cfg)

/-- One compiled rule is the compilation of one raw rule. -/
def TemplateCompiled (ct : String → Except String Tmpl)
    (cr : String → Except String Regex)
    (r : RawTemplateRule) (c : TemplateRule) : Prop :=
  c.pattern = r.pattern ∧ c.queryParams = r.queryParams ∧
  c.template = r.template ∧ c.transform = r.transform ∧
  ct r.template = .ok c.tmpl ∧
  ((r.pattern = "" ∧ c.regex = none) ∨
    (r.pattern ≠ "" ∧ ∃ re, cr r.pattern = .ok re ∧ c.regex = some re))

/-- One compiled site is the compilation of one raw site. -/
def SiteCompiled (ct : String → Except String Tmpl)
    (cr : String → Except String Regex)
    (s : RawSiteRule) (c : SiteRule) : Prop :=
  c.domain = s.domain ∧
  List.Forall₂ (TemplateCompiled ct cr) s.templates c.templates

/-- Every pattern and template of the published config was compiled from
the decoded document. -/
def ConfigCompiled (ct : String → Except String Tmpl)
    (cr : String → Except String Regex)
    (raw : RawConfig) (cfg : Config) : Prop :=
  List.Forall₂ (SiteCompiled ct cr) raw.sites cfg.sites

/-! The WASI boundary (wasi.go). Raw linear memory is not modelled; the
`memoryArena` is an association list from address to the stored string,
and the address the Go allocator picks for a result buffer is the `alloc`
parameter (cast to `uint32`, as `uint32(uintptr(unsafe.Pointer(...)))`
does). -/

/-- Embeds `stringToPtr` from wasi.go: empty or oversized strings yield
the null pair; otherwise the byte buffer is registered in the arena and
its (address, byte length) pair returned. -/
def stringToPtr (alloc : Nat) (arena : List (Nat × String)) (s : String) :
    (Nat × Nat) × List (Nat × String) :=
  if goLen s = 0 then ((0, 0), arena)
  else if goLen s > 0x7FFFFFFF then ((0, 0), arena)
  else
    let p := alloc % 4294967296
    ((p, goLen s), (p, s) :: arena)

/-- The message a pipeline outcome delivers across the boundary: the
signature on success, `err.Error()` on failure. -/
def msgOf : Except String String → String
  | .error e => e
  | .ok s => s

/-- Whether a pipeline outcome is the error case. -/
def isErr : Except String String → Bool
  | .error _ => true
  | .ok _ => false

/-- Embeds the result-packing of `GetSignature` from wasi.go: the
delivered string goes through `stringToPtr`, the address fills bits
63..32, the length bits 31..0, with bit 31 forced on in the error case;
`res` is the `getSignature(url)` outcome for the decoded input. -/
def GetSignatureWasi (alloc : Nat) (arena : List (Nat × String))
    (res : Except String String) : Nat × List (Nat × String) :=
  match res with
  | .error err =>
    let r := stringToPtr alloc arena err
    ((r.1.1 <<< 32 ||| (r.1.2 ||| 0x80000000)) % 18446744073709551616, r.2)
  | .ok sig =>
    let r := stringToPtr alloc arena sig
    ((r.1.1 <<< 32 ||| r.1.2) % 18446744073709551616, r.2)

/-- Models a `memoryArena` load: the string registered at an address. -/
def arenaLookup (arena : List (Nat × String)) (p : Nat) : Option String :=
  (arena.find? (fun e => e.1 == p)).map Prod.snd

/-! Specification-side definitions, to be compared with the embedded
code, plus auxiliary predicates and concrete fixtures. -/

/-- Modelled from the spec (section 4.3): scan the sites in order and take
the first output produced by a suffix-matching site. Stated separately
from `matchSites` so the loop in `processURL` can be proved equal to it. -/
def matchSpec (u : URL) (sites : List SiteRule) : Option String :=
  sites.findSome?
    (fun s => if goHasSuffix u.host s.domain then matchTemplates u s.templates else none)

/-- The net effect of the transform stage on one field's value. -/
def applyTransformValue (tr : List (String × String)) (field v : String) : String :=
  match lookupField tr field with
  | some a => if a = "lowercase" then goToLower v else v
  | none => v

/-- The field map's canonical-form invariant: keys strictly sorted. -/
def SortedKeys (l : List (String × String)) : Prop :=
  l.Pairwise (fun p q => p.1 < q.1)

/-- Two template rules that denote the same compiled rule, their Go maps
linearized in possibly different iteration orders. -/
def QPPerm (r r' : TemplateRule) : Prop :=
  r.pattern = r'.pattern ∧ r.template = r'.template ∧
  r.regex = r'.regex ∧ r.tmpl = r'.tmpl ∧
  r.queryParams.Perm r'.queryParams ∧ (r.queryParams.map Prod.fst).Nodup ∧
  r.transform.Perm r'.transform ∧ (r.transform.map Prod.fst).Nodup

/-- Two site rules equal up to map iteration order. -/
def SitePerm (s s' : SiteRule) : Prop :=
  s.domain = s'.domain ∧ List.Forall₂ QPPerm s.templates s'.templates

/-- Two rule sets equal up to map iteration order. -/
def RuleSetPerm (sites sites' : List SiteRule) : Prop :=
  List.Forall₂ SitePerm sites sites'

/-- Fixture: a pattern-less template taking `Id` from query key `id`. -/
def cex1Rule : TemplateRule :=
  ⟨"", [("Id", "id")], "https://example.com/Id", [], none,
   [.lit "https://example.com/", .field "Id"]⟩

/-- Fixture: a site rule for `example.com`. -/
def cex1Site : SiteRule := ⟨"example.com", [cex1Rule]⟩

/-- Fixture: a URL on the subdomain host. -/
def url1Sub : URL := ⟨"https", "sub.example.com", "/x", [("id", "1")]⟩

/-- Fixture: a URL on the `notexample.com` host. -/
def url1Not : URL := ⟨"https", "notexample.com", "/x", [("id", "1")]⟩

/-- Fixture: a compiled regex that matches no path. -/
def cex2Regex : Regex := ⟨fun _ => none, ["", "X"]⟩

/-- Fixture: a first site for `example.com` whose only template's pattern
never matches. -/
def cex2SiteA : SiteRule := ⟨"example.com", [⟨"/nomatch", [], "A", [], some cex2Regex, [.lit "A"]⟩]⟩

/-- Fixture: a later site for `com` with a pattern-less template. -/
def cex2SiteB : SiteRule := ⟨"com", [⟨"", [("Id", "id")], "B", [], none, [.lit "B:", .field "Id"]⟩]⟩

/-- Fixture: a URL whose host suffix-matches both fixture sites. -/
def url2 : URL := ⟨"https", "example.com", "/x", [("id", "7")]⟩

/-- Fixture: a pattern-less template whose only field comes from query key
`id`. -/
def cex3Rule : TemplateRule := ⟨"", [("Id", "id")], "X", [], none, [.lit "X"]⟩

/-- Fixture: a site rule holding only `cex3Rule`. -/
def cex3Site : SiteRule := ⟨"example.com", [cex3Rule]⟩

/-- Fixture: a URL with no query at all, so extraction finds no fields. -/
def url3 : URL := ⟨"https", "example.com", "/x", []⟩

/-- Fixture: a regex capturing `Id` from the fixture path. -/
def wit4Regex : Regex :=
  ⟨fun s => if s = "/p/path7" then some ["/p/path7", "path7"] else none, ["", "Id"]⟩

/-- Fixture: a rule whose path pattern and query mapping both target
`Id`. -/
def wit4Rule : TemplateRule :=
  ⟨"/p/(?P<Id>[^/]+)", [("Id", "id")], "Id", [], some wit4Regex, [.field "Id"]⟩

/-- Fixture: a URL supplying `Id` both from the path and from the query. -/
def wit4Url : URL := ⟨"https", "example.com", "/p/path7", [("id", "q7")]⟩

/-- Fixture: a template rule with two-entry query and transform maps. -/
def wit9Rule : TemplateRule :=
  ⟨"", [("A", "a"), ("B", "b")], "t", [("A", "lowercase"), ("B", "none")], none,
   [.field "A", .lit "-", .field "B"]⟩

/-- Fixture: `wit9Rule` with both maps linearized in the other order. -/
def wit9Rule' : TemplateRule :=
  ⟨"", [("B", "b"), ("A", "a")], "t", [("B", "none"), ("A", "lowercase")], none,
   [.field "A", .lit "-", .field "B"]⟩

/-- Fixture: the site holding `wit9Rule`. -/
def wit9Site : SiteRule := ⟨"example.com", [wit9Rule]⟩

/-- Fixture: the site holding `wit9Rule'`. -/
def wit9Site' : SiteRule := ⟨"example.com", [wit9Rule']⟩

/-- Fixture: a parse function returning a fixed parsed URL. -/
def wit9Parse : String → Except String URL :=
  fun _ => .ok ⟨"https", "example.com", "/p", [("a", "QQ"), ("b", "ZZ")]⟩

/-- Fixture: a template compiler accepting everything as one literal. -/
def wit6Ct : String → Except String Tmpl := fun s => .ok [.lit s]

/-- Fixture: a regex compiler rejecting every pattern. -/
def wit6Cr : String → Except String Regex := fun _ => .error "syntax"

/-- Fixture: a raw config whose only rule carries a non-empty pattern. -/
def wit6Raw : RawConfig := ⟨[⟨"d", [⟨"p", [], "t", []⟩]⟩]⟩

/-- Fixture: a previously published config. -/
def wit6Prev : Config := ⟨[]⟩

/-! Theorems. First the signature generator. -/

theorem sha256_length (m : List Nat) : (sha256 m).length = 32 := by
  simp [sha256, be32]

theorem hexEncode_length (l : List Nat) : (hexEncode l).length = 2 * l.length := by
  induction l with
  | nil => simp [hexEncode]
  | cons b bs ih => simp [hexEncode, ih]; omega

theorem hexDigit_mem (n : Nat) : hexDigit n ∈ hexChars := by
  unfold hexDigit
  have h16 : n % 16 < 16 := Nat.mod_lt _ (by decide)
  set k := n % 16 with hk
  interval_cases k <;> decide

theorem hexEncode_mem (l : List Nat) : ∀ c ∈ hexEncode l, c ∈ hexChars := by
  induction l with
  | nil => simp [hexEncode]
  | cons b bs ih =>
    intro c hc
    simp only [hexEncode, List.mem_cons] at hc
    rcases hc with h | h | h
    · exact h ▸ hexDigit_mem _
    · exact h ▸ hexDigit_mem _
    · exact ih c h

/-- C7: for every input string, `generateSignature` returns exactly the
64-character lowercase hexadecimal encoding of the SHA-256 digest of the
UTF-8 bytes of the input (it is a total function, so it has no failure
mode), and identical input bytes always yield identical output. -/
theorem generate_signature_sha256_hex (s t : String) :
    (generateSignature s).length = 64 ∧
    (∀ c ∈ (generateSignature s).data, c ∈ hexChars) ∧
    (utf8Bytes s = utf8Bytes t → generateSignature s = generateSignature t) := by
  refine ⟨?_, ?_, ?_⟩
  · simp [generateSignature, String.length, hexEncode_length, sha256_length]
  · intro c hc
    exact hexEncode_mem _ c (by simpa [generateSignature] using hc)
  · intro h
    simp [generateSignature, h]

/-- Witness for C7 at the concrete input `"ab"`. -/
theorem generate_signature_sha256_hex_witness :
    utf8Bytes "ab" = utf8Bytes "ab" ∧ (generateSignature "ab").length = 64 ∧
    generateSignature "ab" = generateSignature "ab" :=
  ⟨rfl, (generate_signature_sha256_hex "ab" "ab").1,
   (generate_signature_sha256_hex "ab" "ab").2.2 rfl⟩

/-! Template rendering (C8). -/

theorem foldl_append_str (g : TmplPart → String) (l : List TmplPart) (a : String) :
    l.foldl (fun acc p => acc ++ g p) a = a ++ l.foldl (fun acc p => acc ++ g p) "" := by
  induction l generalizing a with
  | nil => simp
  | cons x xs ih =>
    simp only [List.foldl_cons]
    rw [ih (a ++ g x), ih ("" ++ g x)]
    simp [String.append_assoc]

theorem renderTmpl_append (t1 t2 : Tmpl) (f : List (String × String)) :
    renderTmpl (t1 ++ t2) f = renderTmpl t1 f ++ renderTmpl t2 f := by
  unfold renderTmpl
  rw [List.foldl_append, foldl_append_str]

theorem renderTmpl_cons (p : TmplPart) (t : Tmpl) (f : List (String × String)) :
    renderTmpl (p :: t) f = renderPart f p ++ renderTmpl t f := by
  unfold renderTmpl
  simp only [List.foldl_cons]
  rw [foldl_append_str]
  simp

/-- C8 counterexample: a placeholder whose field is absent from the
mapping renders as the literal `"<no value>"`, not as the empty string. -/
theorem template_missing_field_counterexample :
    renderTmpl [TmplPart.field "Id"] [] = "<no value>" ∧
    renderTmpl [TmplPart.field "Id"] [] ≠ "" :=
  ⟨rfl, by decide⟩

/-- C8 (amended): rendering a compiled template substitutes each named
placeholder with the mapping's value for that field, and a placeholder
whose field is absent from the mapping renders as the literal string
`"<no value>"` (the default `missingkey` behavior of `text/template` on a
map indexed with an absent key) rather than raising an error —
`renderTmpl` is a total function. -/
theorem template_missing_field_no_value (fields : List (String × String))
    (t1 t2 : Tmpl) (n : String) :
    renderTmpl (t1 ++ TmplPart.field n :: t2) fields =
      renderTmpl t1 fields ++
        (match lookupField fields n with | some v => v | none => "<no value>") ++
      renderTmpl t2 fields := by
  rw [renderTmpl_append, renderTmpl_cons]
  cases h : lookupField fields n <;>
    simp [renderPart, h, String.append_assoc]

/-! Rule matching (C1, C2, C3). -/

/-- C1 counterexample: a rule whose domain is `example.com` does match a
URL whose host is `notexample.com` — `example.com` is a plain string
suffix of `notexample.com`, so the site is selected and produces an
output. -/
theorem domain_suffix_matching_counterexample :
    matchSites url1Not [cex1Site] = .ok "https://example.com/1" := by
  rfl

/-- C1 (amended): rule matching selects a site exactly when its domain is
a plain string suffix of the normalized URL's host, with no label-boundary
check: a rule whose domain is `example.com` matches a URL whose host is
`sub.example.com`, and it also matches a URL whose host is
`notexample.com`. -/
theorem domain_suffix_matching (u : URL) (s : SiteRule) (ss : List SiteRule) :
    (goHasSuffix u.host s.domain = false → matchSites u (s :: ss) = matchSites u ss) ∧
    (goHasSuffix u.host s.domain = true →
      matchSites u (s :: ss) =
        match matchTemplates u s.templates with
        | some out => .ok out
        | none => matchSites u ss) ∧
    matchSites url1Sub [cex1Site] = .ok "https://example.com/1" ∧
    matchSites url1Not [cex1Site] = .ok "https://example.com/1" := by
  refine ⟨?_, ?_, by rfl, by rfl⟩
  · intro h
    simp [matchSites, h]
  · intro h
    simp [matchSites, h]

/-- Witness for C1 at concrete sites and hosts. -/
theorem domain_suffix_matching_witness :
    goHasSuffix url1Sub.host "zzz" = false ∧
    matchSites url1Sub (⟨"zzz", []⟩ :: [cex1Site]) = matchSites url1Sub [cex1Site] ∧
    goHasSuffix url1Sub.host cex1Site.domain = true ∧
    matchSites url1Sub [cex1Site] =
      (match matchTemplates url1Sub cex1Site.templates with
       | some out => .ok out
       | none => matchSites url1Sub []) :=
  ⟨by decide,
   (domain_suffix_matching url1Sub ⟨"zzz", []⟩ [cex1Site]).1 (by decide),
   by decide,
   (domain_suffix_matching url1Sub cex1Site []).2.1 (by decide)⟩

/-- C2 counterexample: the first suffix-matching site (`example.com`,
whose only template's pattern matches nothing) does not end the scan —
the later site (`com`) is consulted and produces the result, where the
claim requires NoMatch. -/
theorem first_match_scan_counterexample :
    matchSites url2 [cex2SiteA, cex2SiteB] = .ok "B:7" := by
  rfl

/-- C2 (amended): matching scans the rule set in order, but a
suffix-matching site none of whose templates produces an output does not
stop the scan: the result is the first output produced by any
suffix-matching site, and only when no suffix-matching site yields an
output does the call return NoMatch, whose caller-visible message is
"no matching rule found for host " followed by the host. -/
theorem first_match_scan (u : URL) (sites : List SiteRule) :
    matchSites u sites =
      (match matchSpec u sites with
       | some out => .ok out
       | none => .error (.noMatch u.host)) ∧
    (PErr.noMatch u.host).message = "no matching rule found for host " ++ u.host := by
  constructor
  · induction sites with
    | nil => rfl
    | cons s ss ih =>
      have hspec : matchSpec u (s :: ss) =
          (if goHasSuffix u.host s.domain then
            (match matchTemplates u s.templates with
             | some o => some o
             | none => matchSpec u ss)
           else matchSpec u ss) := by
        by_cases h : goHasSuffix u.host s.domain <;>
          cases hm : matchTemplates u s.templates <;>
          simp [matchSpec, List.findSome?_cons, h, hm]
      rw [hspec]
      by_cases h : goHasSuffix u.host s.domain
      · cases hm : matchTemplates u s.templates <;>
          simp [matchSites, h, hm, ih]
      · simp [matchSites, h, ih]
  · rfl

/-- Every error `matchSites` itself produces is the NoMatch error for the
URL's host. -/
theorem matchSites_error (u : URL) (sites : List SiteRule) (e : PErr) :
    matchSites u sites = .error e → e = .noMatch u.host := by
  induction sites with
  | nil =>
    intro h
    simp only [matchSites, Except.error.injEq] at h
    exact h.symm
  | cons s ss ih =>
    intro h
    by_cases hc : goHasSuffix u.host s.domain
    · simp only [matchSites, hc, if_true] at h
      cases hm : matchTemplates u s.templates with
      | some out => rw [hm] at h; simp at h
      | none => rw [hm] at h; exact ih h
    · simp only [matchSites, hc, if_false, Bool.false_eq_true] at h
      exact ih h

/-- C3 counterexample: on a URL whose only applicable template extracts
zero fields, `extractFields` does fail with the "no fields extracted"
error, but the end-to-end call surfaces NoMatch instead — the
ExtractionError is swallowed by the matching loop. -/
theorem extraction_error_surfaced_counterexample :
    extractFields url3 cex3Rule = .error (.noFields "https://example.com/x") ∧
    matchSites url3 [cex3Site] = .error (.noMatch "example.com") :=
  ⟨rfl, rfl⟩

/-- C3 (amended): when a selected template yields an empty field mapping,
`extractFields` fails with the error "no fields extracted from URL: ..."
— but `processURL` treats that failure as "this template did not match"
and continues the scan, so the ExtractionError is never surfaced to the
caller of the end-to-end call: every end-to-end error is a parse error or
the NoMatch error. -/
theorem extraction_error_swallowed (u : URL) (rule : TemplateRule)
    (parseNorm : String → Except String URL) (sites : List SiteRule) (raw : String) :
    (∀ fields, extractFields u rule = .ok fields → fields ≠ []) ∧
    (∀ e, extractFields u rule = .error e →
      e = .noFields (urlToString u) ∧
      e.message = "no fields extracted from URL: " ++ urlToString u) ∧
    (∀ e s', processURL parseNorm sites raw = .error e → e ≠ .noFields s') := by
  have heq : extractFields u rule =
      (if (extractRaw u rule).isEmpty then .error (.noFields (urlToString u))
       else .ok (extractRaw u rule)) := by
    unfold extractFields extractRaw
    cases rule.regex <;> rfl
  refine ⟨?_, ?_, ?_⟩
  · intro fields h
    rw [heq] at h
    by_cases hc : (extractRaw u rule).isEmpty
    · rw [if_pos hc] at h
      cases h
    · rw [if_neg hc] at h
      cases h
      intro hnil
      rw [hnil] at hc
      exact hc rfl
  · intro e h
    rw [heq] at h
    by_cases hc : (extractRaw u rule).isEmpty
    · rw [if_pos hc] at h
      cases h
      exact ⟨rfl, rfl⟩
    · rw [if_neg hc] at h
      cases h
  · intro e s' h
    unfold processURL at h
    split at h
    · cases h
      simp
    · have := matchSites_error _ _ _ h
      subst this
      simp

/-- Witness for C3 at the concrete fixture. -/
theorem extraction_error_swallowed_witness :
    extractFields url3 cex3Rule = .error (.noFields "https://example.com/x") ∧
    ((PErr.noFields "https://example.com/x" : PErr) = .noFields (urlToString url3) ∧
      (PErr.noFields "https://example.com/x").message =
        "no fields extracted from URL: " ++ urlToString url3) ∧
    processURL (fun _ => .ok url3) [cex3Site] "in" = .error (.noMatch "example.com") ∧
    PErr.noMatch "example.com" ≠ .noFields "https://example.com/x" :=
  ⟨rfl,
   (extraction_error_swallowed url3 cex3Rule (fun _ => .ok url3) [cex3Site] "in").2.1 _ rfl,
   rfl,
   (extraction_error_swallowed url3 cex3Rule (fun _ => .ok url3) [cex3Site] "in").2.2 _ _ rfl⟩


/-! Field-map infrastructure shared by the extraction claims. -/

theorem lookupField_nil (k : String) : lookupField [] k = none := rfl

theorem lookupField_cons (p : String × String) (m : List (String × String))
    (k : String) :
    lookupField (p :: m) k = if p.1 = k then some p.2 else lookupField m k := by
  by_cases h : p.1 = k
  · simp [lookupField, List.find?_cons_of_pos, h]
  · simp [lookupField, List.find?_cons_of_neg, h]

theorem lookupField_eq_none (m : List (String × String)) (k : String)
    (h : ∀ q ∈ m, q.1 ≠ k) : lookupField m k = none := by
  induction m with
  | nil => rfl
  | cons p rest ih =>
    rw [lookupField_cons, if_neg (h p (List.mem_cons_self p rest))]
    exact ih (fun q hq => h q (List.mem_cons_of_mem p hq))

theorem lookupField_mem {z : List (String × String)} {k v : String}
    (h : lookupField z k = some v) : ∃ q ∈ z, q.2 = v := by
  unfold lookupField at h
  cases hf : z.find? (fun p => p.1 == k) with
  | none => rw [hf] at h; cases h
  | some q =>
    rw [hf] at h
    cases h
    exact ⟨q, List.mem_of_find?_eq_some hf, rfl⟩

theorem lookupField_setField_self (m : List (String × String)) (k v : String) :
    lookupField (setField m k v) k = some v := by
  induction m with
  | nil => simp [setField, lookupField_cons]
  | cons p rest ih =>
    unfold setField
    split_ifs with h1 h2
    · simp [lookupField_cons]
    · simp [lookupField_cons]
    · have hne : p.1 ≠ k := fun he => h2 he.symm
      simp [lookupField_cons, hne, ih]

theorem lookupField_setField_ne (m : List (String × String)) (k v k' : String)
    (h : k ≠ k') : lookupField (setField m k v) k' = lookupField m k' := by
  induction m with
  | nil => simp [setField, lookupField_cons, h]
  | cons p rest ih =>
    unfold setField
    split_ifs with h1 h2
    · simp [lookupField_cons, h]
    · have hp : p.1 ≠ k' := by rw [← h2]; exact h
      simp [lookupField_cons, h, hp]
    · by_cases hp : p.1 = k' <;> simp [lookupField_cons, hp, ih]

theorem mem_setField {m : List (String × String)} {k v : String}
    (q : String × String) (hq : q ∈ setField m k v) : q = (k, v) ∨ q ∈ m := by
  induction m with
  | nil =>
    simp [setField] at hq
    exact Or.inl hq
  | cons p rest ih =>
    unfold setField at hq
    split_ifs at hq with h1 h2
    · rcases List.mem_cons.1 hq with h | h
      · exact Or.inl h
      · exact Or.inr h
    · rcases List.mem_cons.1 hq with h | h
      · exact Or.inl h
      · exact Or.inr (List.mem_cons_of_mem p h)
    · rcases List.mem_cons.1 hq with h | h
      · exact Or.inr (h ▸ List.mem_cons_self p rest)
      · rcases ih h with h' | h'
        · exact Or.inl h'
        · exact Or.inr (List.mem_cons_of_mem p h')

theorem sorted_nil : SortedKeys [] := List.Pairwise.nil

theorem sorted_setField {m : List (String × String)} (h : SortedKeys m)
    (k v : String) : SortedKeys (setField m k v) := by
  induction m with
  | nil => simp [setField, SortedKeys]
  | cons p rest ih =>
    have hp : ∀ q ∈ rest, p.1 < q.1 := (List.pairwise_cons.1 h).1
    have ht : SortedKeys rest := (List.pairwise_cons.1 h).2
    unfold setField
    split_ifs with h1 h2
    · refine List.pairwise_cons.2 ⟨?_, h⟩
      intro q hq
      rcases List.mem_cons.1 hq with rfl | hq'
      · exact h1
      · exact lt_trans h1 (hp q hq')
    · refine List.pairwise_cons.2 ⟨?_, ht⟩
      intro q hq
      rw [h2]
      exact hp q hq
    · have hgt : p.1 < k := by
        rcases lt_trichotomy k p.1 with h' | h' | h'
        · exact absurd h' h1
        · exact absurd h' h2
        · exact h'
      refine List.pairwise_cons.2 ⟨?_, ih ht⟩
      intro q hq
      rcases mem_setField q hq with rfl | hq'
      · exact hgt
      · exact hp q hq'

theorem sorted_lookup_ext {m1 m2 : List (String × String)}
    (h1 : SortedKeys m1) (h2 : SortedKeys m2)
    (h : ∀ k, lookupField m1 k = lookupField m2 k) : m1 = m2 := by
  induction m1 generalizing m2 with
  | nil =>
    cases m2 with
    | nil => rfl
    | cons q rest2 =>
      have := h q.1
      rw [lookupField_nil, lookupField_cons, if_pos rfl] at this
      cases this
  | cons p rest ih =>
    cases m2 with
    | nil =>
      have := h p.1
      rw [lookupField_nil, lookupField_cons, if_pos rfl] at this
      cases this
    | cons q rest2 =>
      have hpr : ∀ r ∈ rest, p.1 < r.1 := (List.pairwise_cons.1 h1).1
      have hqr : ∀ r ∈ rest2, q.1 < r.1 := (List.pairwise_cons.1 h2).1
      have hpq : p.1 = q.1 := by
        rcases lt_trichotomy p.1 q.1 with hlt | he | hgt
        · exfalso
          have hl : lookupField (q :: rest2) p.1 = none := by
            rw [lookupField_cons, if_neg (ne_of_gt hlt)]
            exact lookupField_eq_none _ _
              (fun r hr => ne_of_gt (lt_trans hlt (hqr r hr)))
          have hr : lookupField (p :: rest) p.1 = some p.2 := by
            rw [lookupField_cons, if_pos rfl]
          rw [h p.1, hl] at hr
          cases hr
        · exact he
        · exfalso
          have hl : lookupField (p :: rest) q.1 = none := by
            rw [lookupField_cons, if_neg (ne_of_gt hgt)]
            exact lookupField_eq_none _ _
              (fun r hr => ne_of_gt (lt_trans hgt (hpr r hr)))
          have hr : lookupField (q :: rest2) q.1 = some q.2 := by
            rw [lookupField_cons, if_pos rfl]
          rw [← h q.1, hl] at hr
          cases hr
      have hv : p.2 = q.2 := by
        have := h p.1
        rw [lookupField_cons, if_pos rfl, lookupField_cons, if_pos hpq.symm] at this
        exact Option.some.inj this
      have hrest : ∀ k, lookupField rest k = lookupField rest2 k := by
        intro k
        by_cases hk : p.1 = k
        · rw [lookupField_eq_none rest k
            (fun r hr => ne_of_gt (hk ▸ hpr r hr)),
            lookupField_eq_none rest2 k
            (fun r hr => ne_of_gt ((hpq ▸ hk : q.1 = k) ▸ hqr r hr))]
        · have := h k
          rw [lookupField_cons, if_neg hk, lookupField_cons,
            if_neg (hpq ▸ hk)] at this
          exact this
      have hhead : p = q := Prod.ext hpq hv
      rw [hhead]
      exact congrArg (q :: ·)
        (ih (List.pairwise_cons.1 h1).2 (List.pairwise_cons.1 h2).2 hrest)

theorem setField_comm_sorted {z : List (String × String)} (hz : SortedKeys z)
    {k1 k2 : String} (h : k1 ≠ k2) (v1 v2 : String) :
    setField (setField z k1 v1) k2 v2 = setField (setField z k2 v2) k1 v1 := by
  apply sorted_lookup_ext
    (sorted_setField (sorted_setField hz k1 v1) k2 v2)
    (sorted_setField (sorted_setField hz k2 v2) k1 v1)
  intro k
  rcases eq_or_ne k k1 with rfl | hk1
  · rw [lookupField_setField_ne _ _ _ _ (Ne.symm h), lookupField_setField_self,
      lookupField_setField_self]
  · rcases eq_or_ne k k2 with rfl | hk2
    · rw [lookupField_setField_self, lookupField_setField_ne _ _ _ _ h,
        lookupField_setField_self]
    · rw [lookupField_setField_ne _ _ _ _ (Ne.symm hk2),
        lookupField_setField_ne _ _ _ _ (Ne.symm hk1),
        lookupField_setField_ne _ _ _ _ (Ne.symm hk1),
        lookupField_setField_ne _ _ _ _ (Ne.symm hk2)]

/-! Fold invariants and permutation machinery. -/

theorem extractFields_eq (u : URL) (rule : TemplateRule) :
    extractFields u rule =
      (if (extractRaw u rule).isEmpty then
        .error (.noFields (urlToString u))
       else .ok (extractRaw u rule)) := by
  unfold extractFields extractRaw
  cases rule.regex <;> rfl

theorem foldl_sorted {α : Type}
    {f : List (String × String) → α → List (String × String)}
    (hpres : ∀ z p, SortedKeys z → SortedKeys (f z p)) :
    ∀ (l : List α) (z : List (String × String)),
      SortedKeys z → SortedKeys (l.foldl f z) := by
  intro l
  induction l with
  | nil => intro z hz; exact hz
  | cons x xs ih =>
    intro z hz
    exact ih (f z x) (hpres z x hz)

theorem foldl_perm_sorted
    {f : List (String × String) → (String × String) → List (String × String)}
    (hpres : ∀ z p, SortedKeys z → SortedKeys (f z p))
    (hcomm : ∀ z p q, SortedKeys z → p.1 ≠ q.1 → f (f z p) q = f (f z q) p)
    {l l' : List (String × String)} (hp : l.Perm l') :
    ∀ z, SortedKeys z → (l.map Prod.fst).Nodup →
      l.foldl f z = l'.foldl f z := by
  induction hp with
  | nil => intro z _ _; rfl
  | cons x _ ih =>
    intro z hz hnd
    simp only [List.foldl_cons]
    exact ih (f z x) (hpres z x hz) (by simpa using (List.nodup_cons.1 (by simpa using hnd)).2)
  | swap x y l =>
    intro z hz hnd
    have hyx : y.1 ≠ x.1 := by
      simp only [List.map_cons, List.nodup_cons, List.mem_cons] at hnd
      exact fun he => hnd.1 (Or.inl he)
    simp only [List.foldl_cons]
    rw [hcomm z y x hz hyx]
  | trans h1 _ ih1 ih2 =>
    intro z hz hnd
    rw [ih1 z hz hnd]
    exact ih2 z hz (((h1.map Prod.fst).nodup_iff).1 hnd)

theorem qpStep_sorted (u : URL) (z : List (String × String))
    (p : String × String) (hz : SortedKeys z) : SortedKeys (qpStep u z p) := by
  unfold qpStep
  split_ifs with h
  · exact sorted_setField hz _ _
  · exact hz

theorem qpStep_comm (u : URL) (z : List (String × String))
    (p q : String × String) (hz : SortedKeys z) (hne : p.1 ≠ q.1) :
    qpStep u (qpStep u z p) q = qpStep u (qpStep u z q) p := by
  unfold qpStep
  split_ifs with h1 h2 h2
  · exact setField_comm_sorted hz hne _ _
  · rfl
  · rfl
  · rfl

theorem trStep_lookup_ne (z : List (String × String)) (p : String × String)
    (k : String) (h : p.1 ≠ k) : lookupField (trStep z p) k = lookupField z k := by
  unfold trStep
  cases lookupField z p.1 with
  | none => rfl
  | some v =>
    split_ifs with hl
    · exact lookupField_setField_ne _ _ _ _ h
    · rfl

theorem trStep_sorted (z : List (String × String)) (p : String × String)
    (hz : SortedKeys z) : SortedKeys (trStep z p) := by
  unfold trStep
  cases lookupField z p.1 with
  | none => exact hz
  | some v =>
    split_ifs with hl
    · exact sorted_setField hz _ _
    · exact hz

theorem trStep_eq (z : List (String × String)) (p : String × String) :
    trStep z p =
      (match lookupField z p.1 with
       | some v => if p.2 = "lowercase" then setField z p.1 (goToLower v) else z
       | none => z) := rfl

theorem trStep_comm (z : List (String × String)) (p q : String × String)
    (hz : SortedKeys z) (hne : p.1 ≠ q.1) :
    trStep (trStep z p) q = trStep (trStep z q) p := by
  have hq1 : lookupField (trStep z p) q.1 = lookupField z q.1 :=
    trStep_lookup_ne z p q.1 hne
  have hp1 : lookupField (trStep z q) p.1 = lookupField z p.1 :=
    trStep_lookup_ne z q p.1 (Ne.symm hne)
  rw [trStep_eq (trStep z p) q, trStep_eq (trStep z q) p, hq1, hp1]
  cases ha : lookupField z p.1 with
  | none =>
    cases hb : lookupField z q.1 with
    | none => simp [trStep_eq, ha, hb]
    | some w => simp [trStep_eq, ha, hb]
  | some v =>
    cases hb : lookupField z q.1 with
    | none => simp [trStep_eq, ha, hb]
    | some w =>
      simp only [trStep_eq, ha, hb]
      split_ifs with h1 h2 h2
      · exact setField_comm_sorted hz hne _ _
      · rfl
      · rfl
      · rfl

theorem applyQueryParams_perm (u : URL) {qps qps' : List (String × String)}
    (hp : qps.Perm qps') (hnd : (qps.map Prod.fst).Nodup)
    {z : List (String × String)} (hz : SortedKeys z) :
    applyQueryParams u qps z = applyQueryParams u qps' z := by
  unfold applyQueryParams
  exact foldl_perm_sorted (qpStep_sorted u) (qpStep_comm u) hp z hz hnd

theorem applyTransforms_perm {tr tr' : List (String × String)}
    (hp : tr.Perm tr') (hnd : (tr.map Prod.fst).Nodup)
    {z : List (String × String)} (hz : SortedKeys z) :
    applyTransforms tr z = applyTransforms tr' z := by
  unfold applyTransforms
  exact foldl_perm_sorted trStep_sorted trStep_comm hp z hz hnd

theorem regexCaptures_sorted (re : Regex) (path : String)
    {z : List (String × String)} (hz : SortedKeys z) :
    SortedKeys (regexCaptures re path z) := by
  unfold regexCaptures
  cases re.find path with
  | none => exact hz
  | some ms =>
    refine foldl_sorted ?_ _ _ hz
    intro z p hz'
    unfold rcStep
    split_ifs with h
    · exact sorted_setField hz' _ _
    · exact hz'

theorem applyQueryParams_sorted (u : URL) (qps : List (String × String))
    {z : List (String × String)} (hz : SortedKeys z) :
    SortedKeys (applyQueryParams u qps z) :=
  foldl_sorted (qpStep_sorted u) qps z hz

theorem extractFields_perm {r r' : TemplateRule} (h : QPPerm r r') (u : URL) :
    extractFields u r = extractFields u r' := by
  obtain ⟨hpat, htmp, hreg, htm, hqp, hqnd, htr, htnd⟩ := h
  have hraw : extractRaw u r = extractRaw u r' := by
    unfold extractRaw
    rw [← hreg]
    have hs1 : SortedKeys (match r.regex with
        | none => ([] : List (String × String))
        | some re => regexCaptures re u.path []) := by
      cases r.regex with
      | none => exact sorted_nil
      | some re => exact regexCaptures_sorted re u.path sorted_nil
    rw [applyQueryParams_perm u hqp hqnd hs1]
    exact applyTransforms_perm htr htnd
      (applyQueryParams_sorted u r'.queryParams hs1)
  rw [extractFields_eq, extractFields_eq, hraw]

theorem matchTemplates_perm (u : URL) {ts ts' : List TemplateRule}
    (h : List.Forall₂ QPPerm ts ts') :
    matchTemplates u ts = matchTemplates u ts' := by
  induction h with
  | nil => rfl
  | @cons a b l₁ l₂ h₁ h₂ ih =>
    unfold matchTemplates
    have happ : templateApplies u a = templateApplies u b := by
      unfold templateApplies
      rw [h₁.2.2.1]
    rw [happ, extractFields_perm h₁ u, ih]
    by_cases hg : templateApplies u b
    · rw [if_pos hg, if_pos hg]
      cases extractFields u b with
      | error e => rfl
      | ok fields =>
        have : formatURL a fields = formatURL b fields := by
          unfold formatURL
          rw [h₁.2.2.2.1]
        simp [this]
    · rw [if_neg hg, if_neg hg]

theorem matchSites_perm (u : URL) {ss ss' : List SiteRule}
    (h : RuleSetPerm ss ss') : matchSites u ss = matchSites u ss' := by
  induction h with
  | nil => rfl
  | @cons a b l₁ l₂ h₁ h₂ ih =>
    unfold matchSites
    rw [h₁.1, matchTemplates_perm u h₁.2, ih]

/-- C9: the end-to-end signature computation does not depend on the
iteration order of the (unordered) Go maps for query-parameter extraction
and transforms: any two linearizations of the same rule set — which is
what two successive calls over the same loaded rules observe — produce
identical output, so computing the signature of a URL twice yields
identical output. -/
theorem signature_deterministic (parseNorm : String → Except String URL)
    (sites sites' : List SiteRule) (raw : String)
    (h : RuleSetPerm sites sites') :
    getSignature parseNorm sites raw = getSignature parseNorm sites' raw := by
  unfold getSignature processURL
  cases parseNorm raw with
  | error e => rfl
  | ok u =>
    dsimp only
    rw [matchSites_perm u h]

/-- Witness for C9 at a concrete rule set and its reordered twin. -/
theorem signature_deterministic_witness :
    RuleSetPerm [wit9Site] [wit9Site'] ∧
    getSignature wit9Parse [wit9Site] "u" = getSignature wit9Parse [wit9Site'] "u" := by
  have hperm : RuleSetPerm [wit9Site] [wit9Site'] := by
    refine List.Forall₂.cons ⟨rfl, List.Forall₂.cons ?_ List.Forall₂.nil⟩ List.Forall₂.nil
    exact ⟨rfl, rfl, rfl, rfl, List.Perm.swap _ _ _, by decide,
      List.Perm.swap _ _ _, by decide⟩
  exact ⟨hperm, signature_deterministic wit9Parse _ _ "u" hperm⟩

/-! Field extraction lookup lemmas (C4) and the non-empty-values
invariant (C10). -/

theorem applyQueryParams_cons (u : URL) (p : String × String)
    (rest : List (String × String)) (z : List (String × String)) :
    applyQueryParams u (p :: rest) z = applyQueryParams u rest (qpStep u z p) := rfl

theorem applyTransforms_cons (p : String × String)
    (rest : List (String × String)) (z : List (String × String)) :
    applyTransforms (p :: rest) z = applyTransforms rest (trStep z p) := rfl

theorem qpStep_lookup_ne (u : URL) (z : List (String × String))
    (p : String × String) (k : String) (h : p.1 ≠ k) :
    lookupField (qpStep u z p) k = lookupField z k := by
  unfold qpStep
  split_ifs with hv
  · exact lookupField_setField_ne _ _ _ _ h
  · rfl

theorem applyQueryParams_lookup_not_mem (u : URL) (k : String) :
    ∀ (qps : List (String × String)), k ∉ qps.map Prod.fst →
    ∀ z, lookupField (applyQueryParams u qps z) k = lookupField z k := by
  intro qps
  induction qps with
  | nil => intro _ z; rfl
  | cons p rest ih =>
    intro h z
    simp only [List.map_cons, List.mem_cons] at h
    push_neg at h
    rw [applyQueryParams_cons, ih h.2 (qpStep u z p)]
    exact qpStep_lookup_ne u z p k (fun he => h.1 he.symm)

theorem applyQueryParams_lookup_mem (u : URL) (field qp : String)
    (hval : queryGet u qp ≠ "") :
    ∀ (qps : List (String × String)), (qps.map Prod.fst).Nodup →
    (field, qp) ∈ qps →
    ∀ z, lookupField (applyQueryParams u qps z) field = some (queryGet u qp) := by
  intro qps
  induction qps with
  | nil => intro _ hmem; cases hmem
  | cons p rest ih =>
    intro hnd hmem z
    simp only [List.map_cons, List.nodup_cons] at hnd
    rw [applyQueryParams_cons]
    rcases List.mem_cons.1 hmem with heq | hmem'
    · have hstep : qpStep u z p = setField z field (queryGet u qp) := by
        rw [← heq]
        unfold qpStep
        exact if_pos hval
      have hnotin : field ∉ rest.map Prod.fst := by
        have : p.1 = field := by rw [← heq]
        exact this ▸ hnd.1
      rw [hstep, applyQueryParams_lookup_not_mem u field rest hnotin,
        lookupField_setField_self]
    · exact ih hnd.2 hmem' (qpStep u z p)

theorem applyTransforms_lookup_not_mem (k : String) :
    ∀ (tr : List (String × String)), k ∉ tr.map Prod.fst →
    ∀ z, lookupField (applyTransforms tr z) k = lookupField z k := by
  intro tr
  induction tr with
  | nil => intro _ z; rfl
  | cons p rest ih =>
    intro h z
    simp only [List.map_cons, List.mem_cons] at h
    push_neg at h
    rw [applyTransforms_cons, ih h.2 (trStep z p)]
    exact trStep_lookup_ne z p k (fun he => h.1 he.symm)

theorem applyTransforms_lookup (k : String) :
    ∀ (tr : List (String × String)), (tr.map Prod.fst).Nodup →
    ∀ z, lookupField (applyTransforms tr z) k =
      (lookupField z k).map (fun v => applyTransformValue tr k v) := by
  intro tr
  induction tr with
  | nil =>
    intro _ z
    cases h : lookupField z k <;>
      simp [applyTransforms, applyTransformValue, lookupField_nil, h]
  | cons p rest ih =>
    intro hnd z
    simp only [List.map_cons, List.nodup_cons] at hnd
    rw [applyTransforms_cons, ih hnd.2 (trStep z p)]
    by_cases hk : p.1 = k
    · subst hk
      have hrestnone : lookupField rest p.1 = none :=
        lookupField_eq_none _ _
          (fun q hq he => hnd.1 (he ▸ (List.mem_map).2 ⟨q, hq, rfl⟩))
      have hid : ∀ v, applyTransformValue rest p.1 v = v := by
        intro v
        unfold applyTransformValue
        rw [hrestnone]
      have hcons : ∀ v, applyTransformValue (p :: rest) p.1 v =
          (if p.2 = "lowercase" then goToLower v else v) := by
        intro v
        unfold applyTransformValue
        rw [lookupField_cons, if_pos rfl]
      cases hz : lookupField z p.1 with
      | none => simp [trStep_eq, hz]
      | some v =>
        rw [trStep_eq, hz]
        split_ifs with hl
        · rw [lookupField_setField_self]
          simp [hid, hcons, hl]
        · rw [hz]
          simp [hid, hcons, hl]
    · rw [trStep_lookup_ne z p k hk]
      have harm : ∀ v, applyTransformValue (p :: rest) k v =
          applyTransformValue rest k v := by
        intro v
        unfold applyTransformValue
        rw [lookupField_cons, if_neg hk]
      cases hz : lookupField z k <;> simp [hz, harm]

/-- C4: when a template rule's path pattern captures a field and its
query-parameter mapping targets the same field name, a URL supplying a
non-empty value for both sources resolves to the query-parameter value:
the query stage runs after the path stage and writes unconditionally, so
the extracted mapping holds the query value (transformed if the field is
also named in `transform`; verbatim otherwise). The hypotheses only
require the Go-map invariant that keys are unique. -/
theorem query_over_path_precedence (u : URL) (rule : TemplateRule)
    (field qp : String)
    (hqnd : (rule.queryParams.map Prod.fst).Nodup)
    (htnd : (rule.transform.map Prod.fst).Nodup)
    (hmem : (field, qp) ∈ rule.queryParams)
    (hval : queryGet u qp ≠ "") :
    ∃ fields, extractFields u rule = .ok fields ∧
      lookupField fields field =
        some (applyTransformValue rule.transform field (queryGet u qp)) ∧
      (lookupField rule.transform field = none →
        lookupField fields field = some (queryGet u qp)) := by
  have h2 : ∀ z, lookupField (applyQueryParams u rule.queryParams z) field =
      some (queryGet u qp) :=
    applyQueryParams_lookup_mem u field qp hval rule.queryParams hqnd hmem
  have h3 : lookupField (extractRaw u rule) field =
      some (applyTransformValue rule.transform field (queryGet u qp)) := by
    unfold extractRaw
    rw [applyTransforms_lookup field rule.transform htnd, h2]
    rfl
  have hne : (extractRaw u rule).isEmpty = false := by
    cases hr : extractRaw u rule with
    | nil => rw [hr, lookupField_nil] at h3; cases h3
    | cons a l => rfl
  refine ⟨extractRaw u rule, ?_, h3, ?_⟩
  · rw [extractFields_eq, hne]
    simp
  · intro htr
    rw [h3]
    unfold applyTransformValue
    rw [htr]

/-- Witness for C4 at the concrete fixture rule and URL. -/
theorem query_over_path_precedence_witness :
    (wit4Rule.queryParams.map Prod.fst).Nodup ∧
    (wit4Rule.transform.map Prod.fst).Nodup ∧
    ("Id", "id") ∈ wit4Rule.queryParams ∧
    queryGet wit4Url "id" ≠ "" ∧
    (∃ fields, extractFields wit4Url wit4Rule = .ok fields ∧
      lookupField fields "Id" =
        some (applyTransformValue wit4Rule.transform "Id" (queryGet wit4Url "id")) ∧
      (lookupField wit4Rule.transform "Id" = none →
        lookupField fields "Id" = some (queryGet wit4Url "id"))) :=
  ⟨by decide, by decide, by decide, by decide,
   query_over_path_precedence wit4Url wit4Rule "Id" "id"
     (by decide) (by decide) (by decide) (by decide)⟩

theorem foldl_valsNE {α : Type}
    {f : List (String × String) → α → List (String × String)}
    (hstep : ∀ z p, (∀ q ∈ z, q.2 ≠ "") → ∀ q ∈ f z p, q.2 ≠ "") :
    ∀ (l : List α) (z), (∀ q ∈ z, q.2 ≠ "") → ∀ q ∈ l.foldl f z, q.2 ≠ "" := by
  intro l
  induction l with
  | nil => intro z hz; exact hz
  | cons x xs ih => intro z hz; exact ih (f z x) (hstep z x hz)

theorem setField_valsNE {m : List (String × String)} {k v : String}
    (hm : ∀ q ∈ m, q.2 ≠ "") (hv : v ≠ "") :
    ∀ q ∈ setField m k v, q.2 ≠ "" := by
  intro q hq
  rcases mem_setField q hq with rfl | h
  · exact hv
  · exact hm q h

theorem goToLower_ne_empty {s : String} (h : s ≠ "") : goToLower s ≠ "" := by
  intro he
  apply h
  rw [String.ext_iff] at he ⊢
  simpa [goToLower, List.map_eq_nil_iff] using he

theorem rcStep_valsNE :
    ∀ z p, (∀ q ∈ z, q.2 ≠ "") → ∀ q ∈ rcStep z p, q.2 ≠ "" := by
  intro z p hz
  unfold rcStep
  split_ifs with h
  · exact setField_valsNE hz h.2
  · exact hz

theorem qpStep_valsNE (u : URL) :
    ∀ z p, (∀ q ∈ z, q.2 ≠ "") → ∀ q ∈ qpStep u z p, q.2 ≠ "" := by
  intro z p hz
  unfold qpStep
  split_ifs with h
  · exact setField_valsNE hz h
  · exact hz

theorem trStep_valsNE :
    ∀ z p, (∀ q ∈ z, q.2 ≠ "") → ∀ q ∈ trStep z p, q.2 ≠ "" := by
  intro z p hz
  unfold trStep
  cases hl : lookupField z p.1 with
  | none => exact hz
  | some v =>
    split_ifs with h
    · apply setField_valsNE hz
      obtain ⟨q, hq, hv⟩ := lookupField_mem hl
      exact goToLower_ne_empty (hv ▸ hz q hq)
    · exact hz

/-- C10: every value in a mapping successfully returned by
`extractFields` is a non-empty string — path captures are added only when
the captured text is non-empty, query values only when non-empty, and the
lowercase transform preserves non-emptiness. -/
theorem extracted_values_nonempty (u : URL) (rule : TemplateRule)
    (fields : List (String × String)) (h : extractFields u rule = .ok fields) :
    ∀ p ∈ fields, p.2 ≠ "" := by
  rw [extractFields_eq] at h
  by_cases hc : (extractRaw u rule).isEmpty
  · rw [if_pos hc] at h
    cases h
  · rw [if_neg hc] at h
    cases h
    unfold extractRaw
    have h1 : ∀ q ∈ (match rule.regex with
        | none => ([] : List (String × String))
        | some re => regexCaptures re u.path []), q.2 ≠ "" := by
      cases rule.regex with
      | none =>
        dsimp only
        exact fun q hq => absurd hq (List.not_mem_nil q)
      | some re =>
        dsimp only
        unfold regexCaptures
        cases hf : re.find u.path with
        | none =>
          dsimp only
          exact fun q hq => absurd hq (List.not_mem_nil q)
        | some ms =>
          dsimp only
          exact foldl_valsNE rcStep_valsNE _ []
            (fun q hq => absurd hq (List.not_mem_nil q))
    exact foldl_valsNE trStep_valsNE _ _
      (foldl_valsNE (qpStep_valsNE u) _ _ h1)

/-- Witness for C10 at a concrete extraction. -/
theorem extracted_values_nonempty_witness :
    extractFields url2 cex3Rule = .ok [("Id", "7")] ∧
    ∀ p ∈ ([("Id", "7")] : List (String × String)), p.2 ≠ "" :=
  ⟨rfl, extracted_values_nonempty url2 cex3Rule _ rfl⟩

/-! Rule loading (C6). -/

theorem compileTemplateRule_ok {ct : String → Except String Tmpl}
    {cr : String → Except String Regex} {d : String}
    {r : RawTemplateRule} {c : TemplateRule}
    (h : compileTemplateRule ct cr d r = .ok c) : TemplateCompiled ct cr r c := by
  unfold compileTemplateRule at h
  cases hct : ct r.template with
  | error e => rw [hct] at h; cases h
  | ok t =>
    rw [hct] at h
    dsimp only at h
    by_cases hp : r.pattern = ""
    · rw [if_pos hp] at h
      cases h
      exact ⟨rfl, rfl, rfl, rfl, hct, Or.inl ⟨hp, rfl⟩⟩
    · rw [if_neg hp] at h
      cases hcr : cr r.pattern with
      | error e => rw [hcr] at h; cases h
      | ok re =>
        rw [hcr] at h
        cases h
        exact ⟨rfl, rfl, rfl, rfl, hct, Or.inr ⟨hp, re, hcr, rfl⟩⟩

theorem compileTemplates_ok {ct : String → Except String Tmpl}
    {cr : String → Except String Regex} {d : String} :
    ∀ {rs : List RawTemplateRule} {cs : List TemplateRule},
    compileTemplates ct cr d rs = .ok cs →
    List.Forall₂ (TemplateCompiled ct cr) rs cs := by
  intro rs
  induction rs with
  | nil =>
    intro cs h
    unfold compileTemplates at h
    cases h
    exact .nil
  | cons r rest ih =>
    intro cs h
    unfold compileTemplates at h
    cases h1 : compileTemplateRule ct cr d r with
    | error e => rw [h1] at h; cases h
    | ok c =>
      rw [h1] at h
      cases h2 : compileTemplates ct cr d rest with
      | error e => rw [h2] at h; cases h
      | ok cs' =>
        rw [h2] at h
        cases h
        exact .cons (compileTemplateRule_ok h1) (ih h2)

theorem compileSites_ok {ct : String → Except String Tmpl}
    {cr : String → Except String Regex} :
    ∀ {ss : List RawSiteRule} {cs : List SiteRule},
    compileSites ct cr ss = .ok cs →
    List.Forall₂ (SiteCompiled ct cr) ss cs := by
  intro ss
  induction ss with
  | nil =>
    intro cs h
    unfold compileSites at h
    cases h
    exact .nil
  | cons s rest ih =>
    intro cs h
    unfold compileSites at h
    cases h1 : compileTemplates ct cr s.domain s.templates with
    | error e => rw [h1] at h; cases h
    | ok ts =>
      rw [h1] at h
      cases h2 : compileSites ct cr rest with
      | error e => rw [h2] at h; cases h
      | ok cs' =>
        rw [h2] at h
        cases h
        exact .cons ⟨rfl, compileTemplates_ok h1⟩ (ih h2)

/-- C6: rule-set loading is atomic. If `LoadRules` returns an error —
malformed document, invalid pattern, or invalid template in any rule —
the previously published rule set is left unchanged, so no partially
compiled rule set is ever visible; on success the published config is the
compilation of the whole decoded document, every pattern and template
compiled eagerly before publication. -/
theorem load_rules_atomic (ct : String → Except String Tmpl)
    (cr : String → Except String Regex) (prev : Option Config)
    (doc : Except String RawConfig) :
    (∀ e, (LoadRules ct cr prev doc).1 = .error e →
      (LoadRules ct cr prev doc).2 = prev) ∧
    (∀ un, (LoadRules ct cr prev doc).1 = .ok un →
      ∃ raw cfg, doc = .ok raw ∧ compileConfig ct cr raw = .ok cfg ∧
        (LoadRules ct cr prev doc).2 = some cfg ∧
        ConfigCompiled ct cr raw cfg) := by
  cases doc with
  | error e0 =>
    refine ⟨fun e h => rfl, fun un h => ?_⟩
    simp [LoadRules] at h
  | ok raw =>
    cases hc : compileConfig ct cr raw with
    | error e0 =>
      have hred : LoadRules ct cr prev (.ok raw) = (.error e0, prev) := by
        unfold LoadRules
        dsimp only
        rw [hc]
      refine ⟨fun e h => by rw [hred], fun un h => ?_⟩
      rw [hred] at h
      simp at h
    | ok cfg =>
      have hred : LoadRules ct cr prev (.ok raw) = (.ok (), some cfg) := by
        unfold LoadRules
        dsimp only
        rw [hc]
      refine ⟨fun e h => ?_, fun un h => ⟨raw, cfg, rfl, hc, by rw [hred], ?_⟩⟩
      · rw [hred] at h
        simp at h
      · unfold compileConfig at hc
        cases hs : compileSites ct cr raw.sites with
        | error e => rw [hs] at hc; cases hc
        | ok cs =>
          rw [hs] at hc
          cases hc
          exact compileSites_ok hs

/-- Witness for C6: a failing load (the regex compiler rejects the only
pattern) leaves the published config untouched. -/
theorem load_rules_atomic_witness :
    (LoadRules wit6Ct wit6Cr (some wit6Prev) (.ok wit6Raw)).1 =
      .error "compiling regex for domain d: syntax" ∧
    (LoadRules wit6Ct wit6Cr (some wit6Prev) (.ok wit6Raw)).2 = some wit6Prev :=
  ⟨rfl,
   (load_rules_atomic wit6Ct wit6Cr (some wit6Prev) (.ok wit6Raw)).1 _ rfl⟩

/-! The WASI boundary packing (C5). -/

theorem utf8EncodeChar_ne_nil (c : Char) : utf8EncodeChar c ≠ [] := by
  unfold utf8EncodeChar
  dsimp only
  split_ifs <;> simp

theorem utf8Bytes_eq_nil {s : String} : utf8Bytes s = [] ↔ s = "" := by
  constructor
  · intro h
    cases s with
    | mk data =>
      cases data with
      | nil => rfl
      | cons c cs =>
        exact absurd (List.append_eq_nil.1 h).1 (utf8EncodeChar_ne_nil c)
  · intro h
    rw [h]
    rfl

theorem goLen_pos {s : String} (h : s ≠ "") : 0 < goLen s := by
  unfold goLen
  cases hn : utf8Bytes s with
  | nil => exact absurd (utf8Bytes_eq_nil.1 hn) h
  | cons b bs => simp

theorem shiftLeft_lor_eq_add (p l n : Nat) (h : l < 2 ^ n) :
    (p <<< n) ||| l = 2 ^ n * p + l := by
  apply Nat.eq_of_testBit_eq
  intro i
  rw [Nat.testBit_mul_pow_two_add p h i, Nat.testBit_lor, Nat.testBit_shiftLeft]
  by_cases hi : i < n
  · simp [hi, Nat.not_le.2 hi]
  · have hl : l < 2 ^ i :=
      lt_of_lt_of_le h (Nat.pow_le_pow_right (by omega) (by omega))
    simp [hi, Nat.le_of_not_lt hi, Nat.testBit_lt_two_pow hl]

theorem lor_two_pow_31 (l : Nat) (h : l < 2147483648) :
    l ||| 0x80000000 = l + 2147483648 := by
  have h1 : (1 <<< 31) ||| l = 2 ^ 31 * 1 + l :=
    shiftLeft_lor_eq_add 1 l 31 (by norm_num; omega)
  have h2 : (1 : Nat) <<< 31 = 0x80000000 := by
    rw [Nat.shiftLeft_eq]
  rw [h2] at h1
  rw [Nat.lor_comm, h1]
  have h3 : (2 : Nat) ^ 31 * 1 = 2147483648 := by norm_num
  omega

/-- C5: the boundary signing call returns a single unsigned 64-bit value
with bits 63..32 holding the result buffer address and bits 31..0 the
result length, bit 31 of the low half set exactly when the pipeline
failed; the registered buffer holds the signature on success and the
error message on failure, and the true length is always recoverable as
`result &&& 0x7FFFFFFF`. The hypotheses say only that the delivered
message is non-empty and fits in 31 bits, as every pipeline outcome
does. -/
theorem wasi_packed_result (alloc : Nat) (arena : List (Nat × String))
    (res : Except String String)
    (hm : msgOf res ≠ "") (hl : goLen (msgOf res) ≤ 0x7FFFFFFF) :
    (GetSignatureWasi alloc arena res).1 < 18446744073709551616 ∧
    (GetSignatureWasi alloc arena res).1 >>> 32 = alloc % 4294967296 ∧
    Nat.testBit (GetSignatureWasi alloc arena res).1 31 = isErr res ∧
    (GetSignatureWasi alloc arena res).1 &&& 0x7FFFFFFF = goLen (msgOf res) ∧
    arenaLookup (GetSignatureWasi alloc arena res).2
      ((GetSignatureWasi alloc arena res).1 >>> 32) = some (msgOf res) := by
  have hP : alloc % 4294967296 < 4294967296 := Nat.mod_lt _ (by norm_num)
  have h7 : (0x7FFFFFFF : Nat) = 2 ^ 31 - 1 := by norm_num
  cases res with
  | error err =>
    have hm' : err ≠ "" := hm
    have hlE : goLen err ≤ 2147483647 := hl
    have hpos : 0 < goLen err := goLen_pos hm'
    have hsp : stringToPtr alloc arena err =
        ((alloc % 4294967296, goLen err), (alloc % 4294967296, err) :: arena) := by
      unfold stringToPtr
      rw [if_neg (by omega), if_neg (by omega)]
    have hpack : GetSignatureWasi alloc arena (.error err) =
        (((alloc % 4294967296) <<< 32 ||| (goLen err ||| 0x80000000)) %
            18446744073709551616,
         (alloc % 4294967296, err) :: arena) := by
      unfold GetSignatureWasi
      dsimp only
      rw [hsp]
    have h31 : goLen err ||| 0x80000000 = goLen err + 2147483648 :=
      lor_two_pow_31 _ (by omega)
    have h32 : (alloc % 4294967296) <<< 32 ||| (goLen err + 2147483648) =
        4294967296 * (alloc % 4294967296) + (goLen err + 2147483648) := by
      have h := shiftLeft_lor_eq_add (alloc % 4294967296)
        (goLen err + 2147483648) 32 (by norm_num; omega)
      norm_num at h
      exact h
    have hlt : 4294967296 * (alloc % 4294967296) + (goLen err + 2147483648) <
        18446744073709551616 := by omega
    have hval : (GetSignatureWasi alloc arena (.error err)).1 =
        4294967296 * (alloc % 4294967296) + (goLen err + 2147483648) := by
      rw [hpack]
      dsimp only
      rw [h31, h32, Nat.mod_eq_of_lt hlt]
    have hidx : (GetSignatureWasi alloc arena (.error err)).1 >>> 32 =
        alloc % 4294967296 := by
      rw [hval, Nat.shiftRight_eq_div_pow]
      norm_num
      omega
    refine ⟨by rw [hval]; exact hlt, hidx, ?_, ?_, ?_⟩
    · show Nat.testBit _ 31 = true
      rw [hval, Nat.testBit_to_div_mod]
      simp only [decide_eq_true_eq]
      norm_num
      omega
    · rw [hval, h7, Nat.and_pow_two_sub_one_eq_mod]
      show _ = goLen err
      norm_num
      omega
    · rw [hidx, hpack]
      dsimp only
      unfold arenaLookup
      rw [List.find?_cons_of_pos _ (by simp)]
      rfl
  | ok sig =>
    have hm' : sig ≠ "" := hm
    have hlE : goLen sig ≤ 2147483647 := hl
    have hpos : 0 < goLen sig := goLen_pos hm'
    have hsp : stringToPtr alloc arena sig =
        ((alloc % 4294967296, goLen sig), (alloc % 4294967296, sig) :: arena) := by
      unfold stringToPtr
      rw [if_neg (by omega), if_neg (by omega)]
    have hpack : GetSignatureWasi alloc arena (.ok sig) =
        (((alloc % 4294967296) <<< 32 ||| goLen sig) % 18446744073709551616,
         (alloc % 4294967296, sig) :: arena) := by
      unfold GetSignatureWasi
      dsimp only
      rw [hsp]
    have h32 : (alloc % 4294967296) <<< 32 ||| goLen sig =
        4294967296 * (alloc % 4294967296) + goLen sig := by
      have h := shiftLeft_lor_eq_add (alloc % 4294967296) (goLen sig) 32
        (by norm_num; omega)
      norm_num at h
      exact h
    have hlt : 4294967296 * (alloc % 4294967296) + goLen sig <
        18446744073709551616 := by omega
    have hval : (GetSignatureWasi alloc arena (.ok sig)).1 =
        4294967296 * (alloc % 4294967296) + goLen sig := by
      rw [hpack]
      dsimp only
      rw [h32, Nat.mod_eq_of_lt hlt]
    have hidx : (GetSignatureWasi alloc arena (.ok sig)).1 >>> 32 =
        alloc % 4294967296 := by
      rw [hval, Nat.shiftRight_eq_div_pow]
      norm_num
      omega
    refine ⟨by rw [hval]; exact hlt, hidx, ?_, ?_, ?_⟩
    · show Nat.testBit _ 31 = false
      rw [hval, Nat.testBit_to_div_mod]
      simp only [decide_eq_false_iff_not]
      norm_num
      omega
    · rw [hval, h7, Nat.and_pow_two_sub_one_eq_mod]
      show _ = goLen sig
      norm_num
      omega
    · rw [hidx, hpack]
      dsimp only
      unfold arenaLookup
      rw [List.find?_cons_of_pos _ (by simp)]
      rfl

/-- Witness for C5 at a concrete address, arena and both pipeline
outcomes. -/
theorem wasi_packed_result_witness :
    (msgOf (.error "boom") ≠ "" ∧ goLen (msgOf (.error "boom")) ≤ 0x7FFFFFFF ∧
      Nat.testBit (GetSignatureWasi 4096 [] (.error "boom")).1 31 =
        isErr (.error "boom")) ∧
    (msgOf (.ok "sig") ≠ "" ∧ goLen (msgOf (.ok "sig")) ≤ 0x7FFFFFFF ∧
      Nat.testBit (GetSignatureWasi 4096 [] (.ok "sig")).1 31 =
        isErr (.ok "sig")) :=
  ⟨⟨by decide, by decide,
    (wasi_packed_result 4096 [] (.error "boom") (by decide) (by decide)).2.2.1⟩,
   ⟨by decide, by decide,
    (wasi_packed_result 4096 [] (.ok "sig") (by decide) (by decide)).2.2.1⟩⟩
